import Mathlib

/-!
Verification of the object-remover application core against its design
specification.  The embedding below follows src/components/CanvasEditor.tsx
(the CanvasEditor component together with the App component, its state
handlers, and the surgical compositor defined there).

Canvas 2D model: the HTML canvas specification performs compositing on
premultiplied colors.  A canvas pixel is modelled as four exact rationals
on the 0..255 scale, premultiplied by alpha (`PPix`); decoded image pixels
are straight (non-premultiplied) byte quadruples (`Pix`).  Working over
exact rationals captures the compositing semantics without committing to
an implementation's byte-rounding of intermediate buffers; the claims
settled here concern the rounding-independent cases (derived mask alpha
0 and 255).
-/

/-- RGBA pixel of a decoded raster image: straight (non-premultiplied)
channel values, intended range 0..255 each. -/
structure Pix where
  r : ℕ
  g : ℕ
  b : ℕ
  a : ℕ
  deriving DecidableEq

/-- RGBA pixel with exact rational channels on the 0..255 scale, straight
alpha.  Used for the mathematically exact result of reading a canvas back
out (getImageData / toDataURL view of a pixel). -/
structure QPix where
  r : ℚ
  g : ℚ
  b : ℚ
  a : ℚ
  deriving DecidableEq

/-- Canvas-internal pixel: premultiplied rational channels on the
0..255 scale (pr = r * a / 255 and so on), as mandated by the canvas
compositing model. -/
structure PPix where
  pr : ℚ
  pg : ℚ
  pb : ℚ
  pa : ℚ
  deriving DecidableEq

/-- Conversion of a decoded image pixel into the canvas-internal
premultiplied representation (what drawImage feeds into compositing). -/
def Pix.premul (p : Pix) : PPix :=
  ⟨(p.r : ℚ) * p.a / 255, (p.g : ℚ) * p.a / 255, (p.b : ℚ) * p.a / 255, (p.a : ℚ)⟩

/-- View of a decoded image pixel as an exact rational quadruple. -/
def Pix.toQ (p : Pix) : QPix :=
  ⟨(p.r : ℚ), (p.g : ℚ), (p.b : ℚ), (p.a : ℚ)⟩

/-- Freshly created canvas pixel: transparent black. -/
def blankPPix : PPix := ⟨0, 0, 0, 0⟩

/-- Porter-Duff source-over in premultiplied space: the default
globalCompositeOperation used by every drawImage call of the compositor. -/
def srcOver (src dst : PPix) : PPix :=
  ⟨src.pr + dst.pr * (1 - src.pa / 255),
   src.pg + dst.pg * (1 - src.pa / 255),
   src.pb + dst.pb * (1 - src.pa / 255),
   src.pa + dst.pa * (1 - src.pa / 255)⟩

/-- Porter-Duff destination-in, keeping only the destination weighted by
the source alpha; only the source's alpha channel enters the formula,
which is why the compositor's mask-processing canvas is summarised by its
alpha value here. -/
def destInAlpha (srcAlpha : ℚ) (dst : PPix) : PPix :=
  ⟨dst.pr * srcAlpha / 255, dst.pg * srcAlpha / 255,
   dst.pb * srcAlpha / 255, dst.pa * srcAlpha / 255⟩

/-- Reading a canvas pixel back out as straight RGBA (getImageData /
PNG encoding by toDataURL): un-premultiply; a fully transparent pixel
reads back as transparent black, its color information is gone. -/
def PPix.unpremul (q : PPix) : QPix :=
  if q.pa = 0 then ⟨0, 0, 0, 0⟩
  else ⟨q.pr * 255 / q.pa, q.pg * 255 / q.pa, q.pb * 255 / q.pa, q.pa⟩

/-- Storing a number into a Uint8ClampedArray slot (the implicit
conversion performed by the assignment to pixels of an ImageData buffer):
clamp to 0..255 and round, ties to even. -/
def clampedByte (q : ℚ) : ℕ :=
  if q ≤ 0 then 0
  else if 255 ≤ q then 255
  else
    (if Int.fract q < 1 / 2 then ⌊q⌋
     else if 1 / 2 < Int.fract q then ⌊q⌋ + 1
     else if 2 ∣ ⌊q⌋ then ⌊q⌋ else ⌊q⌋ + 1).toNat

/-- Body of the compositor's alpha-derivation loop
(pixels i+3 := (r + g + b) / 3): the JavaScript double (r+g+b)/3 is
stored into the Uint8ClampedArray alpha slot.  For channel sums up to
765 the double quotient determines the same clamped-rounded byte as the
exact rational quotient, which is used here. -/
def alphaFromChannels (r g b : ℕ) : ℕ :=
  clampedByte (((r : ℚ) + g + b) / 3)

/-- Pixel delivered by getImageData for the mask-processing canvas after
the resampled mask was drawn onto it: un-premultiplication returns the
mask pixel itself when its alpha is nonzero, and transparent black when
its alpha is zero. -/
def maskDataPixel (m : Pix) : Pix :=
  if m.a = 0 then ⟨0, 0, 0, 0⟩ else m

/-- Alpha channel the compositor derives for one pixel of the resampled
mask (the loop over maskData.data in compositeSurgicalResult). -/
def derivedAlpha (m : Pix) : ℕ :=
  alphaFromChannels (maskDataPixel m).r (maskDataPixel m).g (maskDataPixel m).b

/-- Per-pixel semantics of compositeSurgicalResult, at one position of
the output raster.  Inputs are the original pixel `o`, the AI-result
pixel `ai` after its drawImage resampling to the original's dimensions,
and the mask pixel `m` after its drawImage resampling.  Mirrors the
source: a mask-processing canvas whose alpha becomes `derivedAlpha m`
(putImageData), the overlay canvas receiving the AI image and then a
destination-in draw of the mask canvas, and the output canvas receiving
the original followed by a source-over draw of the overlay. -/
def compositeSurgicalResult (o ai m : Pix) : QPix :=
  let alphaMask : ℚ := (derivedAlpha m : ℚ)
  let overlayAfterAi : PPix := srcOver ai.premul blankPPix
  let overlay : PPix := destInAlpha alphaMask overlayAfterAi
  let base : PPix := srcOver o.premul blankPPix
  (srcOver overlay base).unpremul

/-- Tool modes of the editor (types.ts). -/
inductive ToolMode where
  | BRUSH
  | ERASER
  | PAN
  deriving DecidableEq

/-- Bounding rectangle returned by getBoundingClientRect for the
(zoomed/panned) canvas element, in screen pixels. -/
structure DOMRectQ where
  left : ℚ
  top : ℚ
  width : ℚ
  height : ℚ
  deriving DecidableEq

/-- getCanvasCoordinates (CanvasEditor): normalize the client point
against the element's bounding rectangle; null when the normalized
coordinate leaves the unit square, otherwise scale by the image's
natural dimensions. -/
def getCanvasCoordinates (rect : DOMRectQ) (naturalW naturalH clientX clientY : ℚ) :
    Option (ℚ × ℚ) :=
  let normX := (clientX - rect.left) / rect.width
  let normY := (clientY - rect.top) / rect.height
  if normX < 0 ∨ 1 < normX ∨ normY < 0 ∨ 1 < normY then none
  else some (normX * naturalW, normY * naturalH)

/-- handleZoom (CanvasEditor): clamp the new zoom into [1, 5]; when the
unclamped new zoom is at most 1, reset the pan offset to the origin.
Returns the new zoom and the new offset. -/
def handleZoom (delta zoom : ℚ) (offset : ℚ × ℚ) : ℚ × (ℚ × ℚ) :=
  (min (max (zoom + delta) 1) 5, if zoom + delta ≤ 1 then (0, 0) else offset)

/-- Local state of the CanvasEditor component that startInteraction can
touch: drawing and panning flags, last stroke and pan points, the open
canvas path, and the mask raster itself. -/
structure EditorState where
  isDrawing : Bool
  isPanning : Bool
  lastPoint : Option (ℚ × ℚ)
  lastPanPoint : Option (ℚ × ℚ)
  path : List (ℚ × ℚ)
  maskRaster : ℕ × ℕ → ℕ

/-- startInteraction (CanvasEditor): no-op while processing; in PAN mode
start panning at the client point; otherwise map the pointer into image
space and, if it lands on the image, start drawing there (beginPath and
moveTo only open a path, the mask raster is untouched). -/
def startInteraction (isProcessing : Bool) (toolMode : ToolMode)
    (rect : DOMRectQ) (naturalW naturalH clientX clientY : ℚ)
    (es : EditorState) : EditorState :=
  if isProcessing then es
  else if toolMode = ToolMode.PAN then
    { es with isPanning := true, lastPanPoint := some (clientX, clientY) }
  else
    match getCanvasCoordinates rect naturalW naturalH clientX clientY with
    | none => es
    | some coords =>
      { es with isDrawing := true, lastPoint := some coords, path := [coords] }

/-- Stroke color chosen by draw (CanvasEditor):
strokeStyle is white for the brush and black otherwise, on the grayscale
mask raster. -/
def strokeStyle : ToolMode → ℕ
  | ToolMode.BRUSH => 255
  | _ => 0

/-- Effect of one drawn stroke on the mask raster.  The browser
rasterizes the stroked quadratic curve to a set of covered pixels,
`covered`; with globalCompositeOperation source-over and a fully opaque
stroke color every covered pixel is overwritten with the stroke color
and every other pixel keeps its value.  The geometry of the coverage set
stays abstract; the claim under verification only relates painting and
erasing over the same coverage. -/
def draw (toolMode : ToolMode) (covered : ℕ × ℕ → Bool) (mask : ℕ × ℕ → ℕ) :
    ℕ × ℕ → ℕ :=
  fun p => if covered p then strokeStyle toolMode else mask p

/-- Mask raster in its all-preserve state: filled with black, the
fillRect that initializes the mask canvas when an image loads. -/
def allPreserveMask : ℕ × ℕ → ℕ :=
  fun _ => 0

/-- Data URLs handed around by the App component (images and masks). -/
abbrev DataUrl := String

/-- AppState (types.ts) together with the two companion state cells of
the App component, redoStack and cooldownRemaining. -/
structure AppState where
  originalImage : Option DataUrl
  currentImage : Option DataUrl
  maskDataUrl : Option DataUrl
  history : List DataUrl
  isProcessing : Bool
  brushSize : ℕ
  toolMode : ToolMode
  showOriginal : Bool
  redoStack : List DataUrl
  cooldownRemaining : ℕ
  deriving DecidableEq

/-- Initial state of the App component. -/
def initialAppState : AppState :=
  { originalImage := none, currentImage := none, maskDataUrl := none,
    history := [], isProcessing := false, brushSize := 42,
    toolMode := ToolMode.BRUSH, showOriginal := false,
    redoStack := [], cooldownRemaining := 0 }

/-- handleUpload: a successfully read file replaces the whole session:
the data URL becomes both original and current image, the mask is
cleared, history restarts at the new image and the redo stack empties. -/
def handleUpload (dataUrl : DataUrl) (s : AppState) : AppState :=
  { s with originalImage := some dataUrl, currentImage := some dataUrl,
           maskDataUrl := none, history := [dataUrl], redoStack := [] }

/-- handleUpdateMask: the editor exported a freshly painted mask. -/
def handleUpdateMask (maskDataUrl : DataUrl) (s : AppState) : AppState :=
  { s with maskDataUrl := some maskDataUrl }

/-- Guard of handleRemove: an image and a mask must exist, no removal
may be in flight and no cooldown may be pending. -/
def canRemove (s : AppState) : Bool :=
  s.currentImage.isSome && s.maskDataUrl.isSome &&
    !s.isProcessing && s.cooldownRemaining == 0

/-- handleRemove up to its first await: mark a removal as in flight. -/
def handleRemoveStart (s : AppState) : AppState :=
  { s with isProcessing := true }

/-- Success continuation of handleRemove: the composited result becomes
the current image and a new confirmed history entry, the consumed mask
is discarded, the lock drops and the redo stack is cleared. -/
def handleRemoveSuccess (result : DataUrl) (s : AppState) : AppState :=
  { s with currentImage := some result, maskDataUrl := none,
           isProcessing := false, history := s.history ++ [result],
           redoStack := [] }

/-- Catch block of handleRemove, reached when the inpainting call or the
composite rejects (including undecodable inputs): a SYSTEM_BUSY failure
starts the 60 second cooldown, and in every failure case only the
processing flag is dropped. -/
def handleRemoveFailure (busy : Bool) (s : AppState) : AppState :=
  { s with isProcessing := false,
           cooldownRemaining := if busy then 60 else s.cooldownRemaining }

/-- handleUndo: with more than one confirmed state, pop the last history
entry onto the redo stack, make the new last entry current and discard
the painted mask. -/
def handleUndo (s : AppState) : AppState :=
  if s.history.length ≤ 1 then s
  else
    match s.history.getLast? with
    | none => s
    | some undone =>
      { s with currentImage := s.history.dropLast.getLast?,
               history := s.history.dropLast,
               redoStack := undone :: s.redoStack,
               maskDataUrl := none }

/-- handleRedo: with a non-empty redo stack, shift its first entry back
onto the history, make it current and discard the painted mask. -/
def handleRedo (s : AppState) : AppState :=
  match s.redoStack with
  | [] => s
  | redone :: rest =>
    { s with currentImage := some redone,
             history := s.history ++ [redone],
             redoStack := rest,
             maskDataUrl := none }

/-- User-visible events that change the App state.  The removal
continuations only ever run while a removal is in flight, so the step
function guards them with the processing flag. -/
inductive AppEvent where
  | upload (dataUrl : DataUrl)
  | updateMask (maskDataUrl : DataUrl)
  | removeStart
  | removeSuccess (result : DataUrl)
  | removeFailure (busy : Bool)
  | undo
  | redo

/-- One transition of the App component. -/
def appStep (s : AppState) : AppEvent → AppState
  | .upload d => handleUpload d s
  | .updateMask d => handleUpdateMask d s
  | .removeStart => if canRemove s then handleRemoveStart s else s
  | .removeSuccess r => if s.isProcessing then handleRemoveSuccess r s else s
  | .removeFailure b => if s.isProcessing then handleRemoveFailure b s else s
  | .undo => handleUndo s
  | .redo => handleRedo s

/-- States the App component can reach from its initial state. -/
inductive ReachableApp : AppState → Prop where
  | init : ReachableApp initialAppState
  | step {s : AppState} (hs : ReachableApp s) (e : AppEvent) :
      ReachableApp (appStep s e)

/-- History invariant of the App state: before any upload the session is
empty, nothing is in flight and no redo states exist; afterwards the
history is non-empty, its first entry is the originally loaded image and
the current image is its last entry. -/
def HistoryInv (s : AppState) : Prop :=
  (s.history = [] ∧ s.currentImage = none ∧ s.originalImage = none ∧
     s.isProcessing = false ∧ s.redoStack = [])
  ∨ (s.history ≠ [] ∧ s.history.head? = s.originalImage ∧
     s.currentImage = s.history.getLast?)

/-- Concrete loaded App state used to witness the undo and redo
theorems: two confirmed images and one undone state on the redo stack. -/
def sampleLoadedState : AppState :=
  { originalImage := some "a", currentImage := some "b",
    maskDataUrl := some "m", history := ["a", "b"],
    isProcessing := false, brushSize := 42, toolMode := ToolMode.BRUSH,
    showOriginal := false, redoStack := ["c"], cooldownRemaining := 0 }

theorem clampedByte_eq_floor (q : ℚ) (h0 : 0 ≤ q) (h255 : q ≤ 255)
    (hf : Int.fract q < 1 / 2) : (clampedByte q : ℤ) = ⌊q⌋ := by
  unfold clampedByte
  by_cases hle : q ≤ 0
  · have hq0 : q = 0 := le_antisymm hle h0
    simp [hle, hq0]
  · by_cases hge : 255 ≤ q
    · have hq255 : q = (255 : ℚ) := le_antisymm h255 hge
      rw [if_neg hle, if_pos hge, hq255]
      norm_num
    · simp only [hle, hge, if_false, hf, if_true]
      have : (0 : ℤ) ≤ ⌊q⌋ := Int.floor_nonneg.mpr h0
      omega

theorem clampedByte_eq_floor_add_one (q : ℚ) (h0 : 0 ≤ q) (h255 : q ≤ 255)
    (hf : 1 / 2 < Int.fract q) : (clampedByte q : ℤ) = ⌊q⌋ + 1 := by
  unfold clampedByte
  by_cases hle : q ≤ 0
  · exfalso
    have hq0 : q = 0 := le_antisymm hle h0
    rw [hq0] at hf
    norm_num at hf
  · by_cases hge : 255 ≤ q
    · exfalso
      have hq255 : q = (255 : ℚ) := le_antisymm h255 hge
      rw [hq255] at hf
      norm_num [Int.fract] at hf
    · simp only [hle, hge, if_false, hf, if_true]
      have hnf : ¬ Int.fract q < 1 / 2 := by linarith
      simp only [hnf, if_false, hf, if_true]
      have : (0 : ℤ) ≤ ⌊q⌋ := Int.floor_nonneg.mpr h0
      omega

theorem round_eq_floor_of_fract_lt (q : ℚ) (hf : Int.fract q < 1 / 2) :
    round q = ⌊q⌋ := by
  rw [round_eq]
  have hq : (⌊q⌋ : ℚ) + Int.fract q = q := Int.floor_add_fract q
  have hfr0 : 0 ≤ Int.fract q := Int.fract_nonneg q
  rw [Int.floor_eq_iff]
  constructor <;> linarith

theorem round_eq_floor_add_one_of_fract_gt (q : ℚ) (hf : 1 / 2 < Int.fract q) :
    round q = ⌊q⌋ + 1 := by
  rw [round_eq]
  have hq : (⌊q⌋ : ℚ) + Int.fract q = q := Int.floor_add_fract q
  have hfr1 : Int.fract q < 1 := Int.fract_lt_one q
  rw [Int.floor_eq_iff]
  constructor <;> push_cast <;> linarith


theorem clampedByte_div3_eq_round (s : ℕ) (hs : s ≤ 765) :
    (clampedByte ((s : ℚ) / 3) : ℤ) = round ((s : ℚ) / 3) := by
  have h0 : (0 : ℚ) ≤ (s : ℚ) / 3 := by positivity
  have h255 : (s : ℚ) / 3 ≤ 255 := by
    have : (s : ℚ) ≤ 765 := by exact_mod_cast hs
    linarith
  obtain ⟨k, r3, hr3, hk⟩ : ∃ k r3, r3 < 3 ∧ s = 3 * k + r3 :=
    ⟨s / 3, s % 3, Nat.mod_lt _ (by omega), (Nat.div_add_mod s 3).symm ▸ by omega⟩
  have hq : (s : ℚ) / 3 = (r3 : ℚ) / 3 + (k : ℕ) := by
    subst hk; push_cast; ring
  have hfr : Int.fract ((s : ℚ) / 3) = (r3 : ℚ) / 3 := by
    rw [hq, Int.fract_add_nat, Int.fract_eq_self.mpr]
    constructor
    · positivity
    · have : (r3 : ℚ) < 3 := by exact_mod_cast hr3
      linarith
  interval_cases r3
  · have hlt : Int.fract ((s : ℚ) / 3) < 1 / 2 := by rw [hfr]; norm_num
    rw [clampedByte_eq_floor _ h0 h255 hlt, round_eq_floor_of_fract_lt _ hlt]
  · have hlt : Int.fract ((s : ℚ) / 3) < 1 / 2 := by rw [hfr]; norm_num
    rw [clampedByte_eq_floor _ h0 h255 hlt, round_eq_floor_of_fract_lt _ hlt]
  · have hgt : 1 / 2 < Int.fract ((s : ℚ) / 3) := by rw [hfr]; norm_num
    rw [clampedByte_eq_floor_add_one _ h0 h255 hgt,
      round_eq_floor_add_one_of_fract_gt _ hgt]

/-- C3: the alpha value the compositor's derivation loop stores for a
mask pixel whose image-data color channels are R, G, B equals
round((R+G+B)/3), for all channel values in 0..255. -/
theorem derivedAlphaIsRoundedLuminance (r g b : ℕ)
    (hr : r ≤ 255) (hg : g ≤ 255) (hb : b ≤ 255) :
    (alphaFromChannels r g b : ℤ) = round (((r : ℚ) + g + b) / 3) := by
  have hsum : ((r : ℚ) + g + b) = ((r + g + b : ℕ) : ℚ) := by push_cast; ring
  unfold alphaFromChannels
  rw [hsum]
  exact clampedByte_div3_eq_round (r + g + b) (by omega)

/-- Witness for C3 at a concrete pixel. -/
theorem derivedAlphaIsRoundedLuminance_witness :
    (alphaFromChannels 10 20 31 : ℤ) = round (((10 : ℚ) + 20 + 31) / 3) :=
  derivedAlphaIsRoundedLuminance 10 20 31 (by decide) (by decide) (by decide)

theorem derivedAlpha_allBlackOpaque : derivedAlpha ⟨0, 0, 0, 255⟩ = 0 := by
  norm_num [derivedAlpha, maskDataPixel, alphaFromChannels, clampedByte]

theorem derivedAlpha_allWhiteOpaque : derivedAlpha ⟨255, 255, 255, 255⟩ = 255 := by
  norm_num [derivedAlpha, maskDataPixel, alphaFromChannels, clampedByte]

/-- C1 counterexample: a fully transparent original pixel with nonzero
color channels (straight RGBA (255,0,0,0)) does not survive the
composite byte-for-byte even though the derived mask alpha is 0, because
canvas compositing premultiplies and a transparent pixel reads back as
(0,0,0,0). -/
theorem compositePreservesUnmaskedPixels_cex :
    derivedAlpha ⟨0, 0, 0, 255⟩ = 0 ∧
    compositeSurgicalResult ⟨255, 0, 0, 0⟩ ⟨0, 0, 0, 255⟩ ⟨0, 0, 0, 255⟩ ≠
      Pix.toQ ⟨255, 0, 0, 0⟩ := by
  refine ⟨derivedAlpha_allBlackOpaque, ?_⟩
  unfold compositeSurgicalResult
  rw [derivedAlpha_allBlackOpaque]
  norm_num [srcOver, destInAlpha, blankPPix, Pix.premul, PPix.unpremul, Pix.toQ,
    QPix.mk.injEq]

/-- C1 (amended): at every pixel where the derived mask alpha is 0, the
composite output equals the original pixel byte-for-byte, provided the
original pixel is not a fully-transparent pixel carrying nonzero color
channels (such a pixel comes back as transparent black instead). -/
theorem compositePreservesUnmaskedPixels (o ai m : Pix)
    (halpha : derivedAlpha m = 0)
    (ho : o.a ≠ 0 ∨ (o.r = 0 ∧ o.g = 0 ∧ o.b = 0)) :
    compositeSurgicalResult o ai m = o.toQ := by
  unfold compositeSurgicalResult
  rw [halpha]
  simp only [srcOver, destInAlpha, blankPPix, Pix.premul, PPix.unpremul, Pix.toQ,
    Nat.cast_zero]
  norm_num
  by_cases ha0 : o.a = 0
  · rcases ho with h | ⟨hr, hg, hb⟩
    · exact absurd ha0 h
    · simp [ha0, hr, hg, hb]
  · have hca : (o.a : ℚ) ≠ 0 := Nat.cast_ne_zero.mpr ha0
    rw [if_neg ha0]
    field_simp

/-- Witness for C1's amended theorem at a concrete opaque original
pixel and an all-black (preserve) mask pixel. -/
theorem compositePreservesUnmaskedPixels_witness :
    compositeSurgicalResult ⟨1, 2, 3, 255⟩ ⟨9, 8, 7, 255⟩ ⟨0, 0, 0, 255⟩ =
      Pix.toQ ⟨1, 2, 3, 255⟩ :=
  compositePreservesUnmaskedPixels ⟨1, 2, 3, 255⟩ ⟨9, 8, 7, 255⟩ ⟨0, 0, 0, 255⟩
    derivedAlpha_allBlackOpaque (Or.inl (by decide))

/-- C2 counterexample: where the derived mask alpha is 255 but the
resampled AI pixel is not opaque (straight RGBA (0,0,255,0)), the output
is the original pixel, not the AI pixel: destination-in scales by the AI
pixel's own alpha, so a transparent AI pixel contributes nothing. -/
theorem compositeReplacesMaskedPixels_cex :
    derivedAlpha ⟨255, 255, 255, 255⟩ = 255 ∧
    compositeSurgicalResult ⟨9, 9, 9, 255⟩ ⟨0, 0, 255, 0⟩ ⟨255, 255, 255, 255⟩ ≠
      Pix.toQ ⟨0, 0, 255, 0⟩ := by
  refine ⟨derivedAlpha_allWhiteOpaque, ?_⟩
  unfold compositeSurgicalResult
  rw [derivedAlpha_allWhiteOpaque]
  norm_num [srcOver, destInAlpha, blankPPix, Pix.premul, PPix.unpremul, Pix.toQ,
    QPix.mk.injEq]

/-- C2 (amended): at every pixel where the derived mask alpha is 255 and
the resampled AI-result pixel is fully opaque, the composite output
equals the AI-result pixel exactly. -/
theorem compositeReplacesMaskedPixels (o ai m : Pix)
    (halpha : derivedAlpha m = 255) (hai : ai.a = 255) :
    compositeSurgicalResult o ai m = ai.toQ := by
  unfold compositeSurgicalResult
  rw [halpha]
  simp only [srcOver, destInAlpha, blankPPix, Pix.premul, PPix.unpremul, Pix.toQ, hai]
  norm_num

/-- Witness for C2's amended theorem at a concrete opaque AI pixel and an
all-white (replace) mask pixel. -/
theorem compositeReplacesMaskedPixels_witness :
    compositeSurgicalResult ⟨1, 2, 3, 255⟩ ⟨9, 8, 7, 255⟩ ⟨255, 255, 255, 255⟩ =
      Pix.toQ ⟨9, 8, 7, 255⟩ :=
  compositeReplacesMaskedPixels ⟨1, 2, 3, 255⟩ ⟨9, 8, 7, 255⟩ ⟨255, 255, 255, 255⟩
    derivedAlpha_allWhiteOpaque (by decide)

/-- C4: getCanvasCoordinates returns null exactly when the pointer,
normalized against the bounding rectangle of the displayed element,
leaves the unit square, and otherwise returns the normalized coordinate
scaled by the natural image size. -/
theorem mapPointerToImageSpace (rect : DOMRectQ)
    (naturalW naturalH clientX clientY : ℚ)
    (_hw : 0 < rect.width) (_hh : 0 < rect.height) :
    (getCanvasCoordinates rect naturalW naturalH clientX clientY = none ↔
      ¬ (0 ≤ (clientX - rect.left) / rect.width ∧
         (clientX - rect.left) / rect.width ≤ 1 ∧
         0 ≤ (clientY - rect.top) / rect.height ∧
         (clientY - rect.top) / rect.height ≤ 1)) ∧
    ((0 ≤ (clientX - rect.left) / rect.width ∧
      (clientX - rect.left) / rect.width ≤ 1 ∧
      0 ≤ (clientY - rect.top) / rect.height ∧
      (clientY - rect.top) / rect.height ≤ 1) →
      getCanvasCoordinates rect naturalW naturalH clientX clientY =
        some ((clientX - rect.left) / rect.width * naturalW,
              (clientY - rect.top) / rect.height * naturalH)) := by
  unfold getCanvasCoordinates
  set nx := (clientX - rect.left) / rect.width with hnx
  set ny := (clientY - rect.top) / rect.height with hny
  by_cases hc : nx < 0 ∨ 1 < nx ∨ ny < 0 ∨ 1 < ny
  · rw [if_pos hc]
    constructor
    · constructor
      · intro _ hin
        obtain ⟨h1, h2, h3, h4⟩ := hin
        rcases hc with h | h | h | h <;> linarith
      · intro _
        rfl
    · intro hin
      exfalso
      obtain ⟨h1, h2, h3, h4⟩ := hin
      rcases hc with h | h | h | h <;> linarith
  · rw [if_neg hc]
    push_neg at hc
    obtain ⟨h1, h2, h3, h4⟩ := hc
    constructor
    · constructor
      · intro h
        exact absurd h (by simp)
      · intro hout
        exact absurd ⟨h1, h2, h3, h4⟩ hout
    · intro _
      rfl

/-- Witness for C4: at zoom-free geometry 100 times 50 on a 400 times
300 image, the screen point (50, 25) maps to the natural point
(200, 150). -/
theorem mapPointerToImageSpace_witness :
    getCanvasCoordinates ⟨0, 0, 100, 50⟩ 400 300 50 25 = some (200, 150) := by
  have h := (mapPointerToImageSpace ⟨0, 0, 100, 50⟩ 400 300 50 25
    (by norm_num) (by norm_num)).2 (by norm_num)
  rw [h]
  norm_num

/-- C5: painting a coverage region with the brush (full white, opaque
overwrite) and then erasing the same region with the eraser (full black,
same composite mode) returns the mask raster to the all-preserve state,
byte for byte. -/
theorem paintThenEraseRestores (covered : ℕ × ℕ → Bool) (p : ℕ × ℕ) :
    draw ToolMode.ERASER covered (draw ToolMode.BRUSH covered allPreserveMask) p =
      allPreserveMask p := by
  unfold draw allPreserveMask strokeStyle
  by_cases h : covered p <;> simp [h]

/-- C7: while a removal is in flight, startInteraction is a silent
no-op: no drawing or panning state is entered, no path is opened and the
mask raster is untouched. -/
theorem startInteractionLockedNoOp (toolMode : ToolMode) (rect : DOMRectQ)
    (naturalW naturalH clientX clientY : ℚ) (es : EditorState) :
    startInteraction true toolMode rect naturalW naturalH clientX clientY es = es := by
  simp [startInteraction]

/-- C8: after handleZoom the zoom is clamped into [1, 5], and whenever
the resulting zoom is at most 1 the pan offset is reset to the origin. -/
theorem zoomClampAndReset (delta zoom : ℚ) (offset : ℚ × ℚ) :
    1 ≤ (handleZoom delta zoom offset).1 ∧
    (handleZoom delta zoom offset).1 ≤ 5 ∧
    ((handleZoom delta zoom offset).1 ≤ 1 →
      (handleZoom delta zoom offset).2 = (0, 0)) := by
  unfold handleZoom
  refine ⟨le_min (le_max_right _ _) (by norm_num), min_le_right _ _, ?_⟩
  intro h
  rcases min_le_iff.mp h with h1 | h1
  · simp only
    rw [if_pos (max_le_iff.mp h1).1]
  · norm_num at h1

/-- Witness for C8: zooming out at zoom 1 keeps zoom 1 and resets a
nonzero offset. -/
theorem zoomClampAndReset_witness :
    1 ≤ (handleZoom (-1) 1 (3, 4)).1 ∧ (handleZoom (-1) 1 (3, 4)).2 = (0, 0) :=
  ⟨(zoomClampAndReset (-1) 1 (3, 4)).1,
   (zoomClampAndReset (-1) 1 (3, 4)).2.2 (by norm_num [handleZoom])⟩

/-- C9: the failure path of handleRemove leaves every confirmed piece of
state untouched, whether the inpainting call or the composite rejected:
current image, original image, history and redo stack keep their prior
values and only the processing flag is cleared. -/
theorem removalFailureKeepsState (busy : Bool) (s : AppState) :
    (handleRemoveFailure busy s).currentImage = s.currentImage ∧
    (handleRemoveFailure busy s).originalImage = s.originalImage ∧
    (handleRemoveFailure busy s).history = s.history ∧
    (handleRemoveFailure busy s).redoStack = s.redoStack ∧
    (handleRemoveFailure busy s).isProcessing = false :=
  ⟨rfl, rfl, rfl, rfl, rfl⟩

/-- C10: every effective undo (more than one history entry) and every
effective redo (non-empty redo stack) discards the in-progress painted
mask, whatever was painted before. -/
theorem undoRedoDiscardMask (s : AppState) :
    (1 < s.history.length → (handleUndo s).maskDataUrl = none) ∧
    (s.redoStack ≠ [] → (handleRedo s).maskDataUrl = none) := by
  constructor
  · intro h
    unfold handleUndo
    rw [if_neg (by omega)]
    obtain ⟨u, hu⟩ : ∃ u, s.history.getLast? = some u := by
      cases hl : s.history.getLast? with
      | none =>
        rw [List.getLast?_eq_none_iff] at hl
        simp [hl] at h
      | some u => exact ⟨u, rfl⟩
    rw [hu]
  · intro h
    cases hsr : s.redoStack with
    | nil => exact absurd hsr h
    | cons a t => simp [handleRedo, hsr]

/-- Witness for C10 at a loaded state with two history entries, a
painted mask and one redo entry. -/
theorem undoRedoDiscardMask_witness :
    (handleUndo sampleLoadedState).maskDataUrl = none ∧
    (handleRedo sampleLoadedState).maskDataUrl = none :=
  ⟨(undoRedoDiscardMask sampleLoadedState).1 (by decide),
   (undoRedoDiscardMask sampleLoadedState).2 (by decide)⟩

theorem dropLastHeadEq {α : Type} (l : List α) (h : 2 ≤ l.length) :
    l.dropLast.head? = l.head? := by
  match l with
  | [] => simp at h
  | [a] => simp at h
  | a :: b :: t => rfl

theorem dropLastNeNil {α : Type} (l : List α) (h : 2 ≤ l.length) :
    l.dropLast ≠ [] := by
  have hlen : l.dropLast.length = l.length - 1 := List.length_dropLast l
  intro hc
  rw [hc] at hlen
  simp at hlen
  omega

theorem historyInvPreserved (s : AppState) (e : AppEvent) (ih : HistoryInv s) :
    HistoryInv (appStep s e) := by
  cases e with
  | upload d =>
    exact Or.inr ⟨by simp [appStep, handleUpload], by simp [appStep, handleUpload],
      by simp [appStep, handleUpload]⟩
  | updateMask d =>
    rcases ih with ⟨h1, h2, h3, h4, h5⟩ | ⟨h1, h2, h3⟩
    · exact Or.inl ⟨h1, h2, h3, h4, h5⟩
    · exact Or.inr ⟨h1, h2, h3⟩
  | removeStart =>
    by_cases hcr : canRemove s = true
    · have hcur : s.currentImage.isSome = true := by
        unfold canRemove at hcr
        simp only [Bool.and_eq_true] at hcr
        exact hcr.1.1.1
      simp only [appStep]
      rw [if_pos hcr]
      rcases ih with ⟨h1, h2, h3, h4, h5⟩ | ⟨h1, h2, h3⟩
      · rw [h2] at hcur
        simp at hcur
      · exact Or.inr ⟨h1, h2, h3⟩
    · simp only [appStep]
      rw [if_neg hcr]
      exact ih
  | removeSuccess r =>
    by_cases hp : s.isProcessing = true
    · simp only [appStep]
      rw [if_pos hp]
      rcases ih with ⟨h1, h2, h3, h4, h5⟩ | ⟨h1, h2, h3⟩
      · rw [h4] at hp
        simp at hp
      · refine Or.inr ⟨by simp [handleRemoveSuccess], ?_, ?_⟩
        · show (s.history ++ [r]).head? = s.originalImage
          rw [List.head?_append_of_ne_nil _ h1]
          exact h2
        · show some r = (s.history ++ [r]).getLast?
          rw [List.getLast?_concat]
    · simp only [appStep]
      rw [if_neg hp]
      exact ih
  | removeFailure b =>
    by_cases hp : s.isProcessing = true
    · simp only [appStep]
      rw [if_pos hp]
      rcases ih with ⟨h1, h2, h3, h4, h5⟩ | ⟨h1, h2, h3⟩
      · rw [h4] at hp
        simp at hp
      · exact Or.inr ⟨h1, h2, h3⟩
    · simp only [appStep]
      rw [if_neg hp]
      exact ih
  | undo =>
    simp only [appStep]
    unfold handleUndo
    by_cases hlen : s.history.length ≤ 1
    · rw [if_pos hlen]
      exact ih
    · rw [if_neg hlen]
      have h2le : 2 ≤ s.history.length := by omega
      obtain ⟨u, hu⟩ : ∃ u, s.history.getLast? = some u := by
        cases hl : s.history.getLast? with
        | none =>
          rw [List.getLast?_eq_none_iff] at hl
          rw [hl] at h2le
          simp at h2le
        | some u => exact ⟨u, rfl⟩
      rw [hu]
      rcases ih with ⟨h1, h2, h3, h4, h5⟩ | ⟨h1, h2, h3⟩
      · rw [h1] at h2le
        simp at h2le
      · refine Or.inr ⟨dropLastNeNil _ h2le, ?_, rfl⟩
        show s.history.dropLast.head? = s.originalImage
        rw [dropLastHeadEq _ h2le]
        exact h2
  | redo =>
    simp only [appStep]
    unfold handleRedo
    cases hrs : s.redoStack with
    | nil => exact ih
    | cons a t =>
      rcases ih with ⟨h1, h2, h3, h4, h5⟩ | ⟨h1, h2, h3⟩
      · rw [h5] at hrs
        simp at hrs
      · refine Or.inr ⟨by simp, ?_, ?_⟩
        · show (s.history ++ [a]).head? = s.originalImage
          rw [List.head?_append_of_ne_nil _ h1]
          exact h2
        · show some a = (s.history ++ [a]).getLast?
          rw [List.getLast?_concat]

/-- C6: in every reachable App state, once an image is loaded the
history is non-empty with the originally loaded image as its first entry
and the current image as its last entry (so the invariant holds after
each of upload, confirmed removal, undo and redo); and a confirmed
removal always clears the redo stack. -/
theorem historyLinearity :
    (∀ s : AppState, ReachableApp s → HistoryInv s) ∧
    (∀ (r : DataUrl) (s : AppState), (handleRemoveSuccess r s).redoStack = []) := by
  constructor
  · intro s hs
    induction hs with
    | init => exact Or.inl ⟨rfl, rfl, rfl, rfl, rfl⟩
    | step hs e ih => exact historyInvPreserved _ e ih
  · intro r s
    rfl

/-- Witness for C6: the state after uploading one image is reachable and
satisfies the history invariant, and a concrete confirmed removal leaves
an empty redo stack. -/
theorem historyLinearity_witness :
    HistoryInv (appStep initialAppState (AppEvent.upload "img")) ∧
    (handleRemoveSuccess "res" sampleLoadedState).redoStack = [] :=
  ⟨historyLinearity.1 _ (ReachableApp.step ReachableApp.init (AppEvent.upload "img")),
   historyLinearity.2 "res" sampleLoadedState⟩
